import Mathlib

/-!
Shallow embedding of the `langchain_langfuse` demo repository.

Modules embedded (from `src/`):
  * `config.py`        — `Config` record and `Config.validate`
  * `src/tracing.py`   — `get_langfuse_handler`, `get_trace_metadata`
  * `src/tools.py`     — `count_words`, `extract_keywords`
  * `src/agent.py`     — `summarize`, `analyze_text`, `chat`, `rag_query`

External library calls (the Ollama LLM invocation inside a chain / agent /
chat model) are abstracted by explicit oracle arguments of type
`Except PyError _`: the embedded function receives the outcome the external
call would have produced and handles it exactly as the Python `try/except`
blocks do.  Python exceptions are modelled by the `PyError` type and
fallible functions return `Except PyError _`.  Python dictionaries are
modelled as insertion-ordered association lists with Python's assignment
and `update` semantics (`pySet`, `pyUpdate`).
-/

namespace LangLang

/-! ## Python string primitives -/

/-- Characters counted as whitespace (model of Python's `str.strip()` /
`str.split()` whitespace classes). -/
def isWs (c : Char) : Bool := c.isWhitespace

/-- Strip whitespace from both ends of a character list
(model of Python `str.strip()`). -/
def stripChars (cs : List Char) : List Char :=
  ((cs.dropWhile isWs).reverse.dropWhile isWs).reverse

/-- Model of Python `str.strip()`. -/
def pyStrip (s : String) : String := ⟨stripChars s.data⟩

/-- Python truthiness test `not s or not s.strip()` used by the agent
entry points: true iff the string is empty or whitespace-only. -/
def pyBlank (s : String) : Bool := s == "" || pyStrip s == ""

/-- Split a character list at every character satisfying `p`, keeping empty
segments (the behaviour of splitting on a single-character regex class). -/
def splitOnPred (p : Char → Bool) : List Char → List (List Char)
  | [] => [[]]
  | c :: cs =>
    let r := splitOnPred p cs
    if p c then [] :: r
    else
      match r with
      | g :: gs => (c :: g) :: gs
      | [] => [[c]]

/-- Model of Python `str.split()` (no separator): whitespace-separated
tokens, empty tokens dropped. -/
def pySplitWs (cs : List Char) : List (List Char) :=
  (splitOnPred isWs cs).filter (fun g => !g.isEmpty)

/-- End-of-sentence characters of the regex class `[.!?]` in `count_words`. -/
def isSentenceEnd (c : Char) : Bool := c == '.' || c == '!' || c == '?'

/-- Model of `re.split(r'[.!?]+', text)`: split at every maximal run of
sentence-ending characters, keeping the (possibly empty) segments before the
first run, between runs and after the last run. -/
def reSplitPunct : List Char → List (List Char)
  | [] => [[]]
  | c :: cs =>
    let r := reSplitPunct cs
    if isSentenceEnd c then
      match cs with
      | [] => [] :: r
      | c' :: _ => if isSentenceEnd c' then r else [] :: r
    else
      match r with
      | g :: gs => (c :: g) :: gs
      | [] => [[c]]

/-- Maximal runs of characters satisfying `p` (used both as the independent
specification of "whitespace-separated tokens" and as the model of
`re.findall(r'\b\w+\b', s)`). -/
def runsOf (p : Char → Bool) : List Char → List (List Char)
  | [] => []
  | c :: cs =>
    let r := runsOf p cs
    if p c then
      match cs with
      | [] => [[c]]
      | c' :: _ =>
        if p c' then
          match r with
          | g :: gs => (c :: g) :: gs
          | [] => [[c]]
        else [c] :: r
    else r

/-- Test that `p` occurs at the very start of `s`. -/
def firstMatches : List Char → List Char → Bool
  | [], _ => true
  | _ :: _, [] => false
  | a :: as, b :: bs => a == b && firstMatches as bs

/-- Test that `p` occurs somewhere inside `s`
(model of Python's substring test `p in s`). -/
def hasSub (p : List Char) : List Char → Bool
  | [] => firstMatches p []
  | c :: cs => firstMatches p (c :: cs) || hasSub p cs

/-- Model of the Python test `pat in s` on strings. -/
def strHasSub (s pat : String) : Bool := hasSub pat.data s.data

/-- Model of Python `str.lower()` (the messages involved are ASCII). -/
def pyLower (s : String) : String := ⟨s.data.map Char.toLower⟩

/-! ## `src/tools.py` -/

/-- Result dictionary of `count_words` (keys `word_count`,
`character_count`, `sentence_count`). -/
structure CountResult where
  word_count : Nat
  character_count : Nat
  sentence_count : Nat
deriving DecidableEq, Repr

/-- Embedding of `count_words` from `src/tools.py`:
`words = text.split(); char_count = len(text);`
`sentences = re.split(r'[.!?]+', text);`
`sentence_count = len([s for s in sentences if s.strip()])`. -/
def count_words (text : String) : CountResult :=
  { word_count := (pySplitWs text.data).length
    character_count := text.data.length
    sentence_count :=
      ((reSplitPunct text.data).filter (fun s => !(stripChars s).isEmpty)).length }

/-- The stop-word set of `extract_keywords` (`src/tools.py`). -/
def stop_words : List String :=
  ["the", "a", "an", "and", "or", "but", "in", "on", "at", "to", "for",
   "of", "with", "by", "from", "as", "is", "was", "are", "were", "be",
   "been", "being", "have", "has", "had", "do", "does", "did", "will",
   "would", "could", "should", "may", "might", "must", "can", "this",
   "that", "these", "those", "i", "you", "he", "she", "it", "we", "they"]

/-- Word characters of the regex `\w` (ASCII model). -/
def isWordChar (c : Char) : Bool := c.isAlphanum || c == '_'

/-- Model of `re.findall(r'\b\w+\b', text.lower())`: the maximal runs of
word characters of the lowercased text. -/
def findallWords (text : String) : List String :=
  (runsOf isWordChar (pyLower text).data).map (fun g => ⟨g⟩)

/-- The filter of `extract_keywords`:
`w not in stop_words and len(w) > 3`. -/
def meaningful (w : String) : Bool :=
  !(stop_words.contains w) && decide (3 < w.length)

/-- One step of the frequency loop
`word_freq[word] = word_freq.get(word, 0) + 1` on an insertion-ordered
association list: increment in place if present, else append with count 1. -/
def freqStep : List (String × Nat) → String → List (String × Nat)
  | [], w => [(w, 1)]
  | p :: ps, w => if p.1 = w then (w, p.2 + 1) :: ps else p :: freqStep ps w

/-- The frequency dictionary built by the `for word in meaningful_words`
loop of `extract_keywords`. -/
def buildFreq (ws : List String) : List (String × Nat) :=
  ws.foldl freqStep []

/-- Lookup (`word_freq.get(word)`) in a frequency dictionary. -/
def freqGet (m : List (String × Nat)) (w : String) : Option Nat :=
  (m.find? (fun p => p.1 == w)).map Prod.snd

/-- The comparison used by
`sorted(word_freq.items(), key=lambda x: x[1], reverse=True)`:
descending by count.  Python's `sorted` is stable, as is
`List.insertionSort` with this relation, so the two sorts agree. -/
def freqGe (a b : String × Nat) : Prop := b.2 ≤ a.2

instance : DecidableRel freqGe := fun a b => inferInstanceAs (Decidable (b.2 ≤ a.2))

instance : IsTotal (String × Nat) freqGe := ⟨fun a b => Nat.le_total b.2 a.2⟩

instance : IsTrans (String × Nat) freqGe :=
  ⟨fun _ _ _ h h' => Nat.le_trans h' h⟩

/-- Result dictionary of `extract_keywords` (keys `keywords`,
`total_unique_keywords`); the `keywords` dict is kept as the
insertion-ordered association list `dict(sorted_keywords[:n])` builds. -/
structure KeywordResult where
  keywords : List (String × Nat)
  total_unique_keywords : Nat
deriving DecidableEq, Repr

/-- Embedding of `extract_keywords` from `src/tools.py` (for `n ≥ 0`,
matching `sorted_keywords[:n]` on a non-negative `n`). -/
def extract_keywords (text : String) (n : Nat) : KeywordResult :=
  let words := findallWords text
  let meaningful_words := words.filter meaningful
  let word_freq := buildFreq meaningful_words
  let sorted_keywords := List.insertionSort freqGe word_freq
  let top_keywords := sorted_keywords.take n
  { keywords := top_keywords
    total_unique_keywords := word_freq.length }

/-! ## Python values and exceptions -/

/-- Values stored in the heterogeneous (`Dict[str, Any]`) metadata
dictionaries: strings, lists of strings (tags), integers. -/
inductive Val where
  | s (v : String)
  | ls (v : List String)
  | i (v : Int)
deriving DecidableEq, Repr

/-- Python exceptions relevant to this program.  `message` is `str(e)`. -/
inductive PyError where
  | valueError (msg : String)
  | connectionError (msg : String)
  | other (msg : String)
deriving DecidableEq, Repr

/-- The string form `str(e)` of an exception. -/
def PyError.message : PyError → String
  | .valueError m => m
  | .connectionError m => m
  | .other m => m

/-- Whether an exception is a `ConnectionError`. -/
def PyError.isConnError : PyError → Bool
  | .connectionError _ => true
  | _ => false

/-! ## Python dictionaries as insertion-ordered association lists -/

/-- Python dict assignment `d[k] = v`: replace the entry in place if the
key is present (keys of a Python dict are unique, so replacing the first
occurrence is replacing the only one), else append. -/
def pySet : List (String × Val) → String → Val → List (String × Val)
  | [], k, v => [(k, v)]
  | p :: ps, k, v => if p.1 == k then (k, v) :: ps else p :: pySet ps k v

/-- Python `d.update(m)`: assign every entry of `m` into `d`, in order. -/
def pyUpdate (d m : List (String × Val)) : List (String × Val) :=
  m.foldl (fun acc p => pySet acc p.1 p.2) d

/-- Python `d.get(k)` / `d[k]` lookup. -/
def pyGet (d : List (String × Val)) (k : String) : Option Val :=
  (d.find? (fun p => p.1 == k)).map Prod.snd

/-! ## `config.py` -/

/-- Embedding of the `Config` class: the environment-derived fields.
`OLLAMA_MODEL`, `OLLAMA_BASE_URL` and `LANGFUSE_HOST` have defaults and are
plain strings; the two credentials are `Optional[str]`. -/
structure Config where
  OLLAMA_MODEL : String
  OLLAMA_BASE_URL : String
  LANGFUSE_PUBLIC_KEY : Option String
  LANGFUSE_SECRET_KEY : Option String
  LANGFUSE_HOST : String
deriving DecidableEq, Repr

/-- Python truthiness of an `Optional[str]`: `not x` is true exactly when
`x` is `None` or the empty string. -/
def truthyStr : Option String → Bool
  | none => false
  | some s => !(s == "")

/-- Truthiness of an `Optional[List[str]]`. -/
def truthyList : Option (List String) → Bool
  | none => false
  | some l => !l.isEmpty

/-- Truthiness of an `Optional[Dict[str, Any]]`. -/
def truthyDict : Option (List (String × Val)) → Bool
  | none => false
  | some m => !m.isEmpty

/-- Embedding of `Config.validate`: collect the missing credential names,
raise `ValueError` naming them if any, else return normally. -/
def Config.validate (cfg : Config) : Except PyError Unit :=
  let missing : List String :=
    ((if truthyStr cfg.LANGFUSE_PUBLIC_KEY then [] else ["LANGFUSE_PUBLIC_KEY"]) ++
     (if truthyStr cfg.LANGFUSE_SECRET_KEY then [] else ["LANGFUSE_SECRET_KEY"]))
  if missing.isEmpty then .ok ()
  else .error (.valueError
    ("Missing required environment variables: " ++ String.intercalate ", " missing ++
     ". Please set them in your .env file or environment."))

/-! ## `src/tracing.py` -/

/-- Embedding of the `CallbackHandler` object as returned by
`get_langfuse_handler`: the constructor keys plus the seven trace
attributes injected post-hoc (`handler._langfuse_trace_name = ...` etc.). -/
structure CallbackHandler where
  public_key : Option String
  secret_key : Option String
  host : String
  trace_name : Option String
  session_id : Option String
  user_id : Option String
  environment : Option String
  tags : Option (List String)
  custom_metadata : Option (List (String × Val))
  release : Option String
deriving DecidableEq, Repr

/-- Embedding of `get_langfuse_handler`: validate the credentials
(raising `ValueError` if missing), then build the handler and store the
trace attributes on it.  The construction of the `Langfuse` client is an
external side effect with no influence on the returned value. -/
def get_langfuse_handler (cfg : Config)
    (trace_name session_id user_id environment : Option String)
    (tags : Option (List String)) (metadata : Option (List (String × Val)))
    (release : Option String) : Except PyError CallbackHandler :=
  match cfg.validate with
  | .error e => .error e
  | .ok _ => .ok
    { public_key := cfg.LANGFUSE_PUBLIC_KEY
      secret_key := cfg.LANGFUSE_SECRET_KEY
      host := cfg.LANGFUSE_HOST
      trace_name := trace_name
      session_id := session_id
      user_id := user_id
      environment := environment
      tags := tags
      custom_metadata := metadata
      release := release }

/-- The first part of `get_trace_metadata`: the six
`if hasattr(...) and handler._langfuse_...:` statements that add the truthy
trace attributes under their `langfuse_`-prefixed keys, in source order.
The `hasattr` guards are always true for a handler built by
`get_langfuse_handler`, which the `CallbackHandler` record models. -/
def attrBase (handler : CallbackHandler) : List (String × Val) :=
  let metadata : List (String × Val) := []
  let metadata := if truthyStr handler.trace_name then
      pySet metadata "langfuse_name" (.s (handler.trace_name.getD "")) else metadata
  let metadata := if truthyStr handler.session_id then
      pySet metadata "langfuse_session_id" (.s (handler.session_id.getD "")) else metadata
  let metadata := if truthyStr handler.user_id then
      pySet metadata "langfuse_user_id" (.s (handler.user_id.getD "")) else metadata
  let metadata := if truthyStr handler.environment then
      pySet metadata "langfuse_environment" (.s (handler.environment.getD "")) else metadata
  let metadata := if truthyList handler.tags then
      pySet metadata "langfuse_tags" (.ls (handler.tags.getD [])) else metadata
  let metadata := if truthyStr handler.release then
      pySet metadata "langfuse_release" (.s (handler.release.getD "")) else metadata
  metadata

/-- Embedding of `get_trace_metadata`: build the metadata dictionary of
truthy trace attributes (`attrBase`), then merge the custom metadata dict
last via `metadata.update(handler._langfuse_custom_metadata)` when it is
truthy. -/
def get_trace_metadata (handler : CallbackHandler) : List (String × Val) :=
  let metadata := attrBase handler
  if truthyDict handler.custom_metadata then
    pyUpdate metadata (handler.custom_metadata.getD [])
  else metadata

/-! ## `src/agent.py` -/

/-- An `AIMessage`-like result of an LLM call; `content` is its `.content`
attribute. -/
structure AIMessage where
  content : String
deriving DecidableEq, Repr

/-- LangChain chat messages built by `chat`. -/
inductive ChatMessage where
  | system (content : String)
  | human (content : String)
  | ai (content : String)
deriving DecidableEq, Repr

/-- The message about a failed Ollama connection raised by every agent
operation. -/
def ollamaConnMsg (cfg : Config) : String :=
  "Failed to connect to Ollama at " ++ cfg.OLLAMA_BASE_URL ++
  ". Please ensure Ollama is running and the base URL is correct."

/-- The shared `except Exception as e` handler of `summarize`,
`analyze_text`, `chat` and `rag_query`:
`if "connection" in str(e).lower() or "refused" in str(e).lower():`
`raise ConnectionError(...) from e` — otherwise `raise` re-raises `e`. -/
def wrapOllamaError (cfg : Config) (e : PyError) : PyError :=
  if strHasSub (pyLower e.message) "connection" ||
     strHasSub (pyLower e.message) "refused" then
    .connectionError (ollamaConnMsg cfg)
  else e

/-- Embedding of `summarize`.  `chainResult` is the outcome of the external
`chain.invoke({"text": text}, config=invoke_config)` call (the oracle);
the `invoke_config` carries the callback handler and optional metadata to
the external library and does not affect the returned value. -/
def summarize (cfg : Config) (text : String) (langfuse_handler : CallbackHandler)
    (trace_name : Option String)
    (chainResult : Except PyError AIMessage) : Except PyError String :=
  if pyBlank text then .error (.valueError "Input text cannot be empty")
  else
    match chainResult with
    | .ok result => .ok result.content
    | .error e => .error (wrapOllamaError cfg e)

/-- Result dictionary of `analyze_text`. -/
structure AnalysisResult where
  analysis : String
  text_length : Nat
deriving DecidableEq, Repr

/-- Embedding of `analyze_text`.  `agentResult` is the outcome of the
external `agent.invoke(...)` call, abstracted to the `result.get("output", "")`
string it yields. -/
def analyze_text (cfg : Config) (text : String) (langfuse_handler : CallbackHandler)
    (trace_name session_id : Option String)
    (agentResult : Except PyError String) : Except PyError AnalysisResult :=
  if pyBlank text then .error (.valueError "Input text cannot be empty")
  else
    match agentResult with
    | .ok out => .ok { analysis := out, text_length := text.data.length }
    | .error e => .error (wrapOllamaError cfg e)

/-- The LangChain message list `chat` sends to the LLM: a system message,
the history expanded to alternating human/AI messages, then the new
user message. -/
def chatMessages (history : List (String × String)) (message : String) :
    List ChatMessage :=
  [ChatMessage.system
    "You are a helpful assistant. Have a natural conversation with the user."] ++
  history.foldl (fun acc p => acc ++ [ChatMessage.human p.1, ChatMessage.ai p.2]) [] ++
  [ChatMessage.human message]

/-- Embedding of `chat`.  `llmInvoke` is the external `llm.invoke(messages,
config=invoke_config)` call as a function of the message list (the oracle).
`chat_history` is the optional history argument (`None` defaults to `[]`).
On success it returns `(response, chat_history + [(message, response)])`. -/
def chat (cfg : Config) (message : String) (langfuse_handler : CallbackHandler)
    (chat_history : Option (List (String × String)))
    (trace_name session_id : Option String)
    (llmInvoke : List ChatMessage → Except PyError AIMessage) :
    Except PyError (String × List (String × String)) :=
  if pyBlank message then .error (.valueError "Message cannot be empty")
  else
    let history := chat_history.getD []
    match llmInvoke (chatMessages history message) with
    | .ok result =>
      let response := result.content
      .ok (response, history ++ [(message, response)])
    | .error e => .error (wrapOllamaError cfg e)

/-- Embedding of `rag_query`.  `chainResult` is the outcome of the external
`chain.invoke({"question": ..., "context": ...}, ...)` call (the oracle). -/
def rag_query (cfg : Config) (question context : String)
    (langfuse_handler : CallbackHandler)
    (trace_name session_id : Option String)
    (chainResult : Except PyError AIMessage) : Except PyError String :=
  if pyBlank question then .error (.valueError "Question cannot be empty")
  else if pyBlank context then .error (.valueError "Context cannot be empty")
  else
    match chainResult with
    | .ok result => .ok result.content
    | .error e => .error (wrapOllamaError cfg e)

/-! ## Specification-side definitions -/

/-- The credential names reported missing by `Config.validate`, in source
order. -/
def missingCredNames (cfg : Config) : List String :=
  (if truthyStr cfg.LANGFUSE_PUBLIC_KEY then [] else ["LANGFUSE_PUBLIC_KEY"]) ++
  (if truthyStr cfg.LANGFUSE_SECRET_KEY then [] else ["LANGFUSE_SECRET_KEY"])

/-- The full `ValueError` message of `Config.validate` for a given missing
list. -/
def missingMsg (missing : List String) : String :=
  "Missing required environment variables: " ++ String.intercalate ", " missing ++
  ". Please set them in your .env file or environment."

/-- The six `langfuse_`-prefixed keys that `get_trace_metadata` can
generate from trace attributes. -/
def prefixedKeys : List String :=
  ["langfuse_name", "langfuse_session_id", "langfuse_user_id",
   "langfuse_environment", "langfuse_tags", "langfuse_release"]

/-- The trace-attribute part of the metadata dictionary: one entry per
truthy attribute, in the order `get_trace_metadata` adds them. -/
def genList (h : CallbackHandler) : List (String × Val) :=
  (if truthyStr h.trace_name then
    [("langfuse_name", Val.s (h.trace_name.getD ""))] else []) ++
  (if truthyStr h.session_id then
    [("langfuse_session_id", Val.s (h.session_id.getD ""))] else []) ++
  (if truthyStr h.user_id then
    [("langfuse_user_id", Val.s (h.user_id.getD ""))] else []) ++
  (if truthyStr h.environment then
    [("langfuse_environment", Val.s (h.environment.getD ""))] else []) ++
  (if truthyList h.tags then
    [("langfuse_tags", Val.ls (h.tags.getD []))] else []) ++
  (if truthyStr h.release then
    [("langfuse_release", Val.s (h.release.getD ""))] else [])

/-- A concrete configuration with both credentials present (matching the
repository defaults for the other fields), used to instantiate theorems. -/
def sampleConfig : Config :=
  { OLLAMA_MODEL := "llama3.1:8b-instruct-q4_K_M"
    OLLAMA_BASE_URL := "http://localhost:11434"
    LANGFUSE_PUBLIC_KEY := some "pk"
    LANGFUSE_SECRET_KEY := some "sk"
    LANGFUSE_HOST := "https://cloud.langfuse.com" }

/-- A concrete handler with no trace attributes, used to instantiate
theorems. -/
def sampleHandler : CallbackHandler :=
  { public_key := some "pk", secret_key := some "sk"
    host := "https://cloud.langfuse.com"
    trace_name := none, session_id := none, user_id := none
    environment := none, tags := none, custom_metadata := none
    release := none }

/-! ## Dictionary lemmas -/

theorem pyGet_pySet_self (d : List (String × Val)) (k : String) (v : Val) :
    pyGet (pySet d k v) k = some v := by
  induction d with
  | nil => simp [pySet, pyGet, List.find?]
  | cons p ps ih =>
    by_cases hp : p.1 == k
    · simp [pySet, pyGet, hp, List.find?]
    · simp only [pySet, hp, if_neg, Bool.false_eq_true, not_false_eq_true, ite_false]
      simpa [pyGet, List.find?, hp] using ih

theorem pyGet_pySet_ne (d : List (String × Val)) (k k' : String) (v : Val)
    (hne : k' ≠ k) : pyGet (pySet d k v) k' = pyGet d k' := by
  induction d with
  | nil =>
    have hkk : (k == k') = false := by simpa using fun h : k = k' => hne h.symm
    simp [pySet, pyGet, List.find?, hkk]
  | cons p ps ih =>
    by_cases hp : p.1 == k
    · have hpk : p.1 = k := by simpa using hp
      have : ¬ (k == k') := by simpa using fun h => hne h.symm
      have hpk' : ¬ (p.1 == k') := by simpa [hpk] using this
      simp [pySet, pyGet, hp, List.find?, this, hpk']
    · by_cases hq : p.1 == k'
      · simp [pySet, pyGet, hp, List.find?, hq]
      · simp only [pySet, hp, Bool.false_eq_true, not_false_eq_true, ite_false]
        simpa [pyGet, List.find?, hq] using ih

theorem pyUpdate_nil (d : List (String × Val)) : pyUpdate d [] = d := rfl

theorem pyUpdate_cons (d : List (String × Val)) (p : String × Val)
    (m : List (String × Val)) :
    pyUpdate d (p :: m) = pyUpdate (pySet d p.1 p.2) m := rfl

theorem pyGet_pyUpdate_of_ne (d m k) (hk : ∀ p ∈ m, p.1 ≠ k) :
    pyGet (pyUpdate d m) k = pyGet d k := by
  induction m generalizing d with
  | nil => rfl
  | cons p ps ih =>
    rw [pyUpdate_cons, ih _ (fun q hq => hk q (List.mem_cons_of_mem p hq)),
      pyGet_pySet_ne]
    exact fun h => hk p (List.mem_cons_self p ps) h.symm

theorem pyGet_pyUpdate_mem (d m k v) (hnd : (m.map Prod.fst).Nodup)
    (hm : (k, v) ∈ m) : pyGet (pyUpdate d m) k = some v := by
  induction m generalizing d with
  | nil => cases hm
  | cons p ps ih =>
    rcases List.mem_cons.mp hm with heq | hmem
    · subst heq
      rw [pyUpdate_cons]
      have hk : ∀ q ∈ ps, q.1 ≠ k := by
        intro q hq hqk
        have : k ∈ ps.map Prod.fst := hqk ▸ List.mem_map_of_mem Prod.fst hq
        exact (List.nodup_cons.mp hnd).1 this
      rw [pyGet_pyUpdate_of_ne _ _ _ hk]
      exact pyGet_pySet_self d k v
    · rw [pyUpdate_cons]
      exact ih _ (List.nodup_cons.mp hnd).2 hmem

theorem pyGet_eq_none (d : List (String × Val)) (k : String)
    (hk : ∀ p ∈ d, p.1 ≠ k) : pyGet d k = none := by
  induction d with
  | nil => rfl
  | cons p ps ih =>
    have hp : (p.1 == k) = false := by
      simpa using hk p (List.mem_cons_self p ps)
    have := ih fun q hq => hk q (List.mem_cons_of_mem p hq)
    simpa [pyGet, List.find?, hp] using this

theorem genList_keys (h : CallbackHandler) :
    ∀ p ∈ genList h, p.1 ∈ prefixedKeys := by
  intro p hp
  unfold genList at hp
  simp only [List.mem_append] at hp
  rcases hp with ((((hp | hp) | hp) | hp) | hp) | hp <;>
    (revert hp; split <;> intro hp <;> simp_all [prefixedKeys])

theorem pyGet_genList (h : CallbackHandler) :
    (pyGet (genList h) "langfuse_name" =
      if truthyStr h.trace_name then some (Val.s (h.trace_name.getD "")) else none)
  ∧ (pyGet (genList h) "langfuse_session_id" =
      if truthyStr h.session_id then some (Val.s (h.session_id.getD "")) else none)
  ∧ (pyGet (genList h) "langfuse_user_id" =
      if truthyStr h.user_id then some (Val.s (h.user_id.getD "")) else none)
  ∧ (pyGet (genList h) "langfuse_environment" =
      if truthyStr h.environment then some (Val.s (h.environment.getD "")) else none)
  ∧ (pyGet (genList h) "langfuse_tags" =
      if truthyList h.tags then some (Val.ls (h.tags.getD [])) else none)
  ∧ (pyGet (genList h) "langfuse_release" =
      if truthyStr h.release then some (Val.s (h.release.getD "")) else none) := by
  unfold genList
  cases truthyStr h.trace_name <;> cases truthyStr h.session_id <;>
  cases truthyStr h.user_id <;> cases truthyStr h.environment <;>
  cases truthyList h.tags <;> cases truthyStr h.release <;>
  exact ⟨rfl, rfl, rfl, rfl, rfl, rfl⟩

theorem attrBase_eq (h : CallbackHandler) : attrBase h = genList h := by
  unfold attrBase genList
  split_ifs <;> rfl

theorem get_trace_metadata_eq (h : CallbackHandler) :
    get_trace_metadata h = pyUpdate (genList h) (h.custom_metadata.getD []) := by
  unfold get_trace_metadata
  rw [attrBase_eq]
  rcases hm : h.custom_metadata with _ | m
  · simp [truthyDict, pyUpdate_nil]
  · rcases m with _ | ⟨p, ps⟩
    · simp [truthyDict, pyUpdate_nil]
    · simp [truthyDict]

/-! ## Text-splitting lemmas -/

theorem splitOnPred_ne_nil (p : Char → Bool) (cs : List Char) :
    splitOnPred p cs ≠ [] := by
  cases cs with
  | nil => simp [splitOnPred]
  | cons c cs =>
    simp only [splitOnPred]
    split
    · simp
    · split <;> simp

theorem splitOnPred_cons_pos (p : Char → Bool) (c : Char) (cs : List Char)
    (h : p c = true) : splitOnPred p (c :: cs) = [] :: splitOnPred p cs := by
  simp [splitOnPred, h]

theorem splitOnPred_cons_neg (p : Char → Bool) (c : Char) (cs : List Char)
    (g : List Char) (gs : List (List Char)) (h : p c = false)
    (hs : splitOnPred p cs = g :: gs) :
    splitOnPred p (c :: cs) = (c :: g) :: gs := by
  simp only [splitOnPred, h, Bool.false_eq_true, if_false]
  rw [hs]

theorem runsOf_cons_brkout (q : Char → Bool) (c : Char) (cs : List Char)
    (h : q c = false) : runsOf q (c :: cs) = runsOf q cs := by
  simp [runsOf, h]

theorem runsOf_two_brk (q : Char → Bool) (c c' : Char) (cs : List Char)
    (h : q c = true) (h' : q c' = false) :
    runsOf q (c :: c' :: cs) = [c] :: runsOf q (c' :: cs) := by
  conv_lhs => rw [runsOf]
  simp [h, h']

theorem runsOf_two_ext (q : Char → Bool) (c c' : Char) (cs : List Char)
    (g : List Char) (gs : List (List Char)) (h : q c = true) (h' : q c' = true)
    (hr : runsOf q (c' :: cs) = g :: gs) :
    runsOf q (c :: c' :: cs) = (c :: g) :: gs := by
  conv_lhs => rw [runsOf]
  simp only [h, h', if_true]
  rw [hr]

theorem splitOnPred_filter_eq_runsOf (p : Char → Bool) (cs : List Char) :
    (splitOnPred p cs).filter (fun g => !g.isEmpty) = runsOf (fun c => !p c) cs := by
  induction cs with
  | nil => rfl
  | cons c cs ih =>
    cases hp : p c with
    | true =>
      rw [splitOnPred_cons_pos p c cs hp,
        runsOf_cons_brkout _ c cs (by simp [hp])]
      simpa using ih
    | false =>
      obtain ⟨g, gs, hsplit⟩ : ∃ g gs, splitOnPred p cs = g :: gs := by
        rcases h : splitOnPred p cs with _ | ⟨g, gs⟩
        · exact absurd h (splitOnPred_ne_nil p cs)
        · exact ⟨g, gs, rfl⟩
      rw [splitOnPred_cons_neg p c cs g gs hp hsplit]
      cases cs with
      | nil =>
        simp only [splitOnPred] at hsplit
        obtain ⟨hg, hgs⟩ := List.cons.inj hsplit
        subst hg; subst hgs
        simp [runsOf, hp]
      | cons c' cs' =>
        rw [hsplit] at ih
        cases hp' : p c' with
        | true =>
          rw [splitOnPred_cons_pos p c' cs' hp'] at hsplit
          obtain ⟨hg, hgs⟩ := List.cons.inj hsplit
          subst hg; subst hgs
          rw [runsOf_two_brk _ c c' cs' (by simp [hp]) (by simp [hp']), ← ih]
          simp
        | false =>
          have hgne : g ≠ [] := by
            obtain ⟨g2, gs2, hsplit0⟩ : ∃ g2 gs2, splitOnPred p cs' = g2 :: gs2 := by
              rcases h2 : splitOnPred p cs' with _ | ⟨g2, gs2⟩
              · exact absurd h2 (splitOnPred_ne_nil p cs')
              · exact ⟨g2, gs2, rfl⟩
            rw [splitOnPred_cons_neg p c' cs' g2 gs2 hp' hsplit0] at hsplit
            obtain ⟨hg, _⟩ := List.cons.inj hsplit
            rw [← hg]
            exact List.cons_ne_nil c' g2
          have hfg : List.filter (fun g => !g.isEmpty) (g :: gs) =
              g :: List.filter (fun g => !g.isEmpty) gs := by
            simp [List.filter_cons, hgne]
          rw [hfg] at ih
          rw [runsOf_two_ext _ c c' cs' g (List.filter (fun g => !g.isEmpty) gs)
            (by simp [hp]) (by simp [hp']) ih.symm]
          simp [List.filter_cons]

theorem stripChars_eq_nil_iff (s : List Char) :
    stripChars s = [] ↔ ∀ x ∈ s, isWs x = true := by
  unfold stripChars
  rw [List.reverse_eq_nil_iff, List.dropWhile_eq_nil_iff]
  constructor
  · intro hall x hx
    have hx' : x ∈ List.takeWhile isWs s ++ List.dropWhile isWs s := by
      rwa [List.takeWhile_append_dropWhile]
    rcases List.mem_append.mp hx' with h | h
    · exact List.mem_takeWhile_imp h
    · exact hall x (List.mem_reverse.mpr h)
  · intro hall x hx
    exact hall x ((List.dropWhile_sublist isWs).mem (List.mem_reverse.mp hx))

theorem strip_isEmpty_eq (s : List Char) :
    (!(stripChars s).isEmpty) = s.any (fun c => !c.isWhitespace) := by
  cases h : s.any (fun c => !c.isWhitespace) with
  | false =>
    have hall : ∀ x ∈ s, isWs x = true := by
      intro x hx
      have := List.any_eq_false.mp h x hx
      simpa [isWs] using this
    have hnil : stripChars s = [] := (stripChars_eq_nil_iff s).mpr hall
    simp [hnil]
  | true =>
    obtain ⟨x, hx, hxw⟩ := List.any_eq_true.mp h
    have hne : stripChars s ≠ [] := by
      intro hnil
      have hw := (stripChars_eq_nil_iff s).mp hnil x hx
      simp only [isWs] at hw
      simp [hw] at hxw
    cases hE : (stripChars s).isEmpty with
    | false => rfl
    | true => exact absurd (List.isEmpty_iff.mp hE) hne

/-! ## Frequency-dictionary lemmas -/

theorem freqStep_keys (m : List (String × Nat)) (w : String) :
    (freqStep m w).map Prod.fst =
      if w ∈ m.map Prod.fst then m.map Prod.fst else m.map Prod.fst ++ [w] := by
  induction m with
  | nil => simp [freqStep]
  | cons p ps ih =>
    by_cases hp : p.1 = w
    · simp [freqStep, hp]
    · simp only [freqStep, hp, Bool.false_eq_true, if_false, List.map_cons]
      rw [ih]
      by_cases hw : w ∈ ps.map Prod.fst
      · simp [hw, Ne.symm hp]
      · simp [hw, Ne.symm hp]

theorem freqStep_keys_nodup (m : List (String × Nat)) (w : String)
    (h : (m.map Prod.fst).Nodup) : ((freqStep m w).map Prod.fst).Nodup := by
  rw [freqStep_keys]
  by_cases hw : w ∈ m.map Prod.fst
  · simpa [hw] using h
  · simp [hw, List.nodup_append, h]

theorem freqGet_freqStep_self (m : List (String × Nat)) (w : String) :
    freqGet (freqStep m w) w = some ((freqGet m w).getD 0 + 1) := by
  induction m with
  | nil => simp [freqStep, freqGet, List.find?]
  | cons p ps ih =>
    by_cases hp : p.1 = w
    · simp [freqStep, freqGet, List.find?, hp]
    · have hb : (p.1 == w) = false := by simpa using hp
      simp only [freqStep, hp, Bool.false_eq_true, if_false]
      simpa [freqGet, List.find?, hb] using ih

theorem freqGet_freqStep_ne (m : List (String × Nat)) (w w' : String)
    (hne : w' ≠ w) : freqGet (freqStep m w) w' = freqGet m w' := by
  have hb : (w == w') = false := by simpa using fun h : w = w' => hne h.symm
  induction m with
  | nil => simp [freqStep, freqGet, List.find?, hb]
  | cons p ps ih =>
    by_cases hp : p.1 = w
    · simp [freqStep, freqGet, List.find?, hp, hb]
    · simp only [freqStep, hp, Bool.false_eq_true, if_false]
      by_cases hq : p.1 = w'
      · simp [freqGet, List.find?, hq]
      · have hbq : (p.1 == w') = false := by simpa using hq
        simpa [freqGet, List.find?, hbq] using ih

theorem freqGet_foldl_some (ws : List String) (m : List (String × Nat))
    (w : String) (k : Nat) (hm : freqGet m w = some k) :
    freqGet (ws.foldl freqStep m) w = some (k + ws.count w) := by
  induction ws generalizing m k with
  | nil => simpa using hm
  | cons a ws ih =>
    rw [List.foldl_cons]
    by_cases ha : a = w
    · subst ha
      have hstep : freqGet (freqStep m a) a = some (k + 1) := by
        rw [freqGet_freqStep_self, hm]; rfl
      rw [ih _ _ hstep, List.count_cons_self]
      congr 1
      omega
    · have hstep : freqGet (freqStep m a) w = some k := by
        rw [freqGet_freqStep_ne _ _ _ (Ne.symm ha), hm]
      have hb2 : (a == w) = false := by simpa using ha
      rw [ih _ _ hstep, List.count_cons, hb2]
      simp

theorem freqGet_foldl_none (ws : List String) (m : List (String × Nat))
    (w : String) (hm : freqGet m w = none) :
    freqGet (ws.foldl freqStep m) w =
      if ws.count w = 0 then none else some (ws.count w) := by
  induction ws generalizing m with
  | nil => simpa using hm
  | cons a ws ih =>
    rw [List.foldl_cons]
    by_cases ha : a = w
    · subst ha
      have h1 : freqGet (freqStep m a) a = some 1 := by
        rw [freqGet_freqStep_self, hm]; rfl
      rw [freqGet_foldl_some ws _ _ _ h1, List.count_cons_self]
      have : ws.count a + 1 ≠ 0 := by omega
      simp only [this, if_false]
      congr 1
      omega
    · have hstep : freqGet (freqStep m a) w = none := by
        rw [freqGet_freqStep_ne _ _ _ (Ne.symm ha), hm]
      have hb2 : (a == w) = false := by simpa using ha
      rw [ih _ hstep]
      have hcnt : (a :: ws).count w = ws.count w := by
        rw [List.count_cons, hb2]
        simp
      rw [hcnt]

theorem foldl_keys_mem (ws : List String) (m : List (String × Nat))
    (w : String) :
    w ∈ (ws.foldl freqStep m).map Prod.fst ↔ w ∈ m.map Prod.fst ∨ w ∈ ws := by
  induction ws generalizing m with
  | nil => simp
  | cons a ws ih =>
    rw [List.foldl_cons, ih, freqStep_keys]
    by_cases ha : a ∈ m.map Prod.fst
    · simp only [ha, if_true, List.mem_cons]
      constructor
      · rintro (h | h)
        · exact Or.inl h
        · exact Or.inr (Or.inr h)
      · rintro (h | h | h)
        · exact Or.inl h
        · exact Or.inl (h ▸ ha)
        · exact Or.inr h
    · simp only [ha, if_false, List.mem_append, List.mem_singleton,
        List.mem_cons]
      tauto

theorem foldl_keys_nodup (ws : List String) (m : List (String × Nat))
    (h : (m.map Prod.fst).Nodup) :
    ((ws.foldl freqStep m).map Prod.fst).Nodup := by
  induction ws generalizing m with
  | nil => simpa using h
  | cons a ws ih => exact ih _ (freqStep_keys_nodup m a h)

theorem mem_iff_freqGet (m : List (String × Nat))
    (hnd : (m.map Prod.fst).Nodup) (w : String) (k : Nat) :
    (w, k) ∈ m ↔ freqGet m w = some k := by
  induction m with
  | nil => simp [freqGet]
  | cons p ps ih =>
    obtain ⟨hh, ht⟩ : p.1 ∉ ps.map Prod.fst ∧ (ps.map Prod.fst).Nodup := by
      simpa using hnd
    cases hb : (p.1 == w) with
    | true =>
      have hpw : p.1 = w := by simpa using hb
      have hG : freqGet (p :: ps) w = some p.2 := by
        simp [freqGet, List.find?, hb]
      rw [hG]
      constructor
      · intro h
        rcases List.mem_cons.mp h with heq | hmem
        · rw [← heq]
        · exact absurd
            (by rw [hpw]; exact List.mem_map_of_mem Prod.fst hmem) hh
      · intro h
        have hk : p.2 = k := by simpa using h
        have hpe : p = (w, k) := by
          rcases p with ⟨p1, p2⟩
          simp only at hpw hk
          rw [hpw, hk]
        rw [hpe]
        exact List.mem_cons_self _ _
    | false =>
      have hpw : p.1 ≠ w := by simpa using hb
      have hG : freqGet (p :: ps) w = freqGet ps w := by
        simp [freqGet, List.find?, hb]
      rw [hG, ← ih ht]
      constructor
      · intro h
        rcases List.mem_cons.mp h with heq | hmem
        · exact absurd (congrArg Prod.fst heq).symm hpw
        · exact hmem
      · exact fun h => List.mem_cons_of_mem p h

theorem buildFreq_keys_perm (ws : List String) :
    ((buildFreq ws).map Prod.fst).Perm ws.dedup := by
  refine (List.perm_ext_iff_of_nodup
    (foldl_keys_nodup ws [] (by simp)) (List.nodup_dedup ws)).mpr ?_
  intro a
  rw [List.mem_dedup]
  show a ∈ (ws.foldl freqStep []).map Prod.fst ↔ a ∈ ws
  rw [foldl_keys_mem]
  simp

theorem buildFreq_length (ws : List String) :
    (buildFreq ws).length = ws.dedup.length := by
  have h := (buildFreq_keys_perm ws).length_eq
  simpa using h

/-! ## Claim theorems: tracing and configuration -/

/-- C1: credentials must be present before any trace-producing call.  If
`LANGFUSE_PUBLIC_KEY` or `LANGFUSE_SECRET_KEY` is absent (`None` or empty),
`get_langfuse_handler` raises a `ValueError` whose message names exactly
the missing variables and no handler is constructed; if both are present,
`Config.validate` returns normally and a handler is returned. -/
theorem claim_credentials_gate (cfg : Config)
    (tn sid uid env : Option String) (tags : Option (List String))
    (md : Option (List (String × Val))) (rel : Option String) :
    ((truthyStr cfg.LANGFUSE_PUBLIC_KEY = false ∨
      truthyStr cfg.LANGFUSE_SECRET_KEY = false) →
      get_langfuse_handler cfg tn sid uid env tags md rel =
        .error (.valueError (missingMsg (missingCredNames cfg))) ∧
      (∀ name, name ∈ missingCredNames cfg ↔
        (name = "LANGFUSE_PUBLIC_KEY" ∧ truthyStr cfg.LANGFUSE_PUBLIC_KEY = false) ∨
        (name = "LANGFUSE_SECRET_KEY" ∧ truthyStr cfg.LANGFUSE_SECRET_KEY = false))) ∧
    ((truthyStr cfg.LANGFUSE_PUBLIC_KEY = true ∧
      truthyStr cfg.LANGFUSE_SECRET_KEY = true) →
      cfg.validate = .ok () ∧
      get_langfuse_handler cfg tn sid uid env tags md rel = .ok
        { public_key := cfg.LANGFUSE_PUBLIC_KEY
          secret_key := cfg.LANGFUSE_SECRET_KEY
          host := cfg.LANGFUSE_HOST
          trace_name := tn, session_id := sid, user_id := uid
          environment := env, tags := tags, custom_metadata := md
          release := rel }) := by
  cases hp : truthyStr cfg.LANGFUSE_PUBLIC_KEY <;>
  cases hs : truthyStr cfg.LANGFUSE_SECRET_KEY <;>
  simp [get_langfuse_handler, Config.validate, missingCredNames, missingMsg, hp, hs]

/-- Witness for C1 at a concrete configuration missing the public key. -/
theorem claim_credentials_gate_witness :
    get_langfuse_handler
      { OLLAMA_MODEL := "llama3.1:8b-instruct-q4_K_M"
        OLLAMA_BASE_URL := "http://localhost:11434"
        LANGFUSE_PUBLIC_KEY := none
        LANGFUSE_SECRET_KEY := some "sk"
        LANGFUSE_HOST := "https://cloud.langfuse.com" }
      none none none none none none none =
      .error (.valueError ("Missing required environment variables: " ++
        "LANGFUSE_PUBLIC_KEY. Please set them in your .env file or environment.")) := by
  have h := (claim_credentials_gate
    { OLLAMA_MODEL := "llama3.1:8b-instruct-q4_K_M"
      OLLAMA_BASE_URL := "http://localhost:11434"
      LANGFUSE_PUBLIC_KEY := none
      LANGFUSE_SECRET_KEY := some "sk"
      LANGFUSE_HOST := "https://cloud.langfuse.com" }
    none none none none none none none).1 (Or.inl rfl)
  simpa [missingCredNames, missingMsg, truthyStr] using h.1

/-- C6: all trace attributes are optional.  With credentials present,
`get_langfuse_handler` called with every attribute `None` succeeds, and
`get_trace_metadata` on the returned handler is the empty map. -/
theorem claim_all_attrs_optional (cfg : Config)
    (hp : truthyStr cfg.LANGFUSE_PUBLIC_KEY = true)
    (hs : truthyStr cfg.LANGFUSE_SECRET_KEY = true) :
    ∃ h, get_langfuse_handler cfg none none none none none none none =
        Except.ok h ∧ get_trace_metadata h = [] := by
  refine ⟨{ public_key := cfg.LANGFUSE_PUBLIC_KEY
            secret_key := cfg.LANGFUSE_SECRET_KEY
            host := cfg.LANGFUSE_HOST
            trace_name := none, session_id := none, user_id := none
            environment := none, tags := none, custom_metadata := none
            release := none }, ?_, ?_⟩
  · simp [get_langfuse_handler, Config.validate, hp, hs]
  · rw [get_trace_metadata_eq]
    rfl

/-- Witness for C6 at a concrete configuration with both credentials. -/
theorem claim_all_attrs_optional_witness :
    ∃ h, get_langfuse_handler
      { OLLAMA_MODEL := "llama3.1:8b-instruct-q4_K_M"
        OLLAMA_BASE_URL := "http://localhost:11434"
        LANGFUSE_PUBLIC_KEY := some "pk"
        LANGFUSE_SECRET_KEY := some "sk"
        LANGFUSE_HOST := "https://cloud.langfuse.com" }
      none none none none none none none = Except.ok h ∧
      get_trace_metadata h = [] :=
  claim_all_attrs_optional _ rfl rfl

/-- C10: custom metadata can silently overwrite trace attributes.  A key
of the custom metadata dict that collides with a prefixed attribute key is
returned mapped to the custom metadata's value, because the custom
metadata is merged last. -/
theorem claim_custom_metadata_overwrites (h : CallbackHandler)
    (m : List (String × Val)) (k : String) (v : Val)
    (hmd : h.custom_metadata = some m)
    (hnd : (m.map Prod.fst).Nodup)
    (hkv : (k, v) ∈ m) :
    pyGet (get_trace_metadata h) k = some v := by
  rw [get_trace_metadata_eq, hmd]
  simpa using pyGet_pyUpdate_mem (genList h) m k v hnd hkv

/-- Witness for C10: the custom key `langfuse_session_id` shadows the
truthy `session_id` attribute stored on the handler. -/
theorem claim_custom_metadata_overwrites_witness :
    pyGet (get_trace_metadata
      { public_key := some "pk", secret_key := some "sk"
        host := "https://cloud.langfuse.com"
        trace_name := none, session_id := some "s", user_id := none
        environment := none, tags := none
        custom_metadata := some [("langfuse_session_id", Val.s "other")]
        release := none }) "langfuse_session_id" = some (Val.s "other") :=
  claim_custom_metadata_overwrites _ [("langfuse_session_id", Val.s "other")]
    "langfuse_session_id" (Val.s "other") rfl (by decide) (by decide)

/-- C2 counterexample: the round-trip as stated fails when a custom
metadata key collides with a prefixed attribute key.  Here the handler is
built with `session_id = "s"` (truthy) and custom metadata
`{"langfuse_session_id": "other"}`; the returned map does not map
`langfuse_session_id` to the session-id attribute. -/
theorem claim_metadata_roundtrip_cex :
    get_langfuse_handler
      { OLLAMA_MODEL := "llama3.1:8b-instruct-q4_K_M"
        OLLAMA_BASE_URL := "http://localhost:11434"
        LANGFUSE_PUBLIC_KEY := some "pk"
        LANGFUSE_SECRET_KEY := some "sk"
        LANGFUSE_HOST := "https://cloud.langfuse.com" }
      none (some "s") none none none
      (some [("langfuse_session_id", Val.s "other")]) none = Except.ok
      { public_key := some "pk", secret_key := some "sk"
        host := "https://cloud.langfuse.com"
        trace_name := none, session_id := some "s", user_id := none
        environment := none, tags := none
        custom_metadata := some [("langfuse_session_id", Val.s "other")]
        release := none } ∧
    truthyStr (some "s") = true ∧
    pyGet (get_trace_metadata
      { public_key := some "pk", secret_key := some "sk"
        host := "https://cloud.langfuse.com"
        trace_name := none, session_id := some "s", user_id := none
        environment := none, tags := none
        custom_metadata := some [("langfuse_session_id", Val.s "other")]
        release := none }) "langfuse_session_id" ≠ some (Val.s "s") := by
  refine ⟨rfl, rfl, ?_⟩
  decide

/-- C2 (amended): metadata-prefix propagation round-trip, provided the
custom metadata's keys are disjoint from the six prefixed attribute keys
(otherwise a colliding custom entry overwrites the attribute, since the
custom metadata is merged last).  The returned map carries
`langfuse_name ↦ trace_name` and the five other prefixed keys for exactly
the truthy attributes, the custom entries un-prefixed, and nothing else. -/
theorem claim_metadata_roundtrip (h : CallbackHandler)
    (mdl : List (String × Val)) (hmd : h.custom_metadata.getD [] = mdl)
    (hnd : (mdl.map Prod.fst).Nodup)
    (hdisj : ∀ p ∈ mdl, p.1 ∉ prefixedKeys) :
    (pyGet (get_trace_metadata h) "langfuse_name" =
      if truthyStr h.trace_name then some (Val.s (h.trace_name.getD "")) else none)
  ∧ (pyGet (get_trace_metadata h) "langfuse_session_id" =
      if truthyStr h.session_id then some (Val.s (h.session_id.getD "")) else none)
  ∧ (pyGet (get_trace_metadata h) "langfuse_user_id" =
      if truthyStr h.user_id then some (Val.s (h.user_id.getD "")) else none)
  ∧ (pyGet (get_trace_metadata h) "langfuse_environment" =
      if truthyStr h.environment then some (Val.s (h.environment.getD "")) else none)
  ∧ (pyGet (get_trace_metadata h) "langfuse_tags" =
      if truthyList h.tags then some (Val.ls (h.tags.getD [])) else none)
  ∧ (pyGet (get_trace_metadata h) "langfuse_release" =
      if truthyStr h.release then some (Val.s (h.release.getD "")) else none)
  ∧ (∀ p ∈ mdl, pyGet (get_trace_metadata h) p.1 = some p.2)
  ∧ (∀ k, k ∉ prefixedKeys → (∀ p ∈ mdl, p.1 ≠ k) →
      pyGet (get_trace_metadata h) k = none) := by
  have hmeta : get_trace_metadata h = pyUpdate (genList h) mdl := by
    rw [get_trace_metadata_eq, hmd]
  have hupd : ∀ K, K ∈ prefixedKeys →
      pyGet (pyUpdate (genList h) mdl) K = pyGet (genList h) K := by
    intro K hK
    exact pyGet_pyUpdate_of_ne _ _ _ (fun p hp hpk => hdisj p hp (hpk ▸ hK))
  obtain ⟨g1, g2, g3, g4, g5, g6⟩ := pyGet_genList h
  refine ⟨?_, ?_, ?_, ?_, ?_, ?_, ?_, ?_⟩
  · rw [hmeta, hupd _ (by decide), g1]
  · rw [hmeta, hupd _ (by decide), g2]
  · rw [hmeta, hupd _ (by decide), g3]
  · rw [hmeta, hupd _ (by decide), g4]
  · rw [hmeta, hupd _ (by decide), g5]
  · rw [hmeta, hupd _ (by decide), g6]
  · intro p hp
    rw [hmeta]
    exact pyGet_pyUpdate_mem _ _ _ _ hnd hp
  · intro k hk hk'
    rw [hmeta, pyGet_pyUpdate_of_ne _ _ _ hk']
    exact pyGet_eq_none _ _ (fun p hp hpk => hk (hpk ▸ genList_keys h p hp))

/-- Witness for the amended C2 at a concrete handler with a truthy
trace name and non-colliding custom metadata. -/
theorem claim_metadata_roundtrip_witness :
    pyGet (get_trace_metadata
      { public_key := some "pk", secret_key := some "sk"
        host := "https://cloud.langfuse.com"
        trace_name := some "t", session_id := none, user_id := none
        environment := none, tags := none
        custom_metadata := some [("k", Val.i 1)]
        release := none }) "langfuse_name" = some (Val.s "t") := by
  have h := claim_metadata_roundtrip
    { public_key := some "pk", secret_key := some "sk"
      host := "https://cloud.langfuse.com"
      trace_name := some "t", session_id := none, user_id := none
      environment := none, tags := none
      custom_metadata := some [("k", Val.i 1)]
      release := none } [("k", Val.i 1)] rfl (by decide) (by decide)
  simpa using h.1

/-! ## Claim theorems: agent operations -/

/-- C4 counterexample: an exception that already is a `ConnectionError`
but whose string form contains neither `connection` nor `refused`
propagates unchanged, so the operation raises a `ConnectionError` even
though the claimed substring condition is false — the "if and only if"
fails in the only-if direction. -/
theorem claim_exception_wrap_cex :
    summarize sampleConfig "hello" sampleHandler none
        (Except.error (PyError.connectionError "service unavailable"))
      = Except.error (PyError.connectionError "service unavailable")
  ∧ PyError.isConnError (PyError.connectionError "service unavailable") = true
  ∧ strHasSub (pyLower (PyError.message
      (PyError.connectionError "service unavailable"))) "connection" = false
  ∧ strHasSub (pyLower (PyError.message
      (PyError.connectionError "service unavailable"))) "refused" = false := by
  exact ⟨rfl, rfl, by decide, by decide⟩

/-- C4 (amended): for an exception `e` raised by the underlying invocation
inside `summarize`, `analyze_text`, `chat` or `rag_query` (on non-blank
inputs), the operation raises the wrapping Ollama `ConnectionError`
exactly when `str(e)` contains `connection` or `refused`
case-insensitively, and otherwise `e` itself propagates unchanged (which
may still be a `ConnectionError` if `e` already was one). -/
theorem claim_exception_wrap (cfg : Config)
    (text question context message : String) (h : CallbackHandler)
    (hist : Option (List (String × String))) (tn sid : Option String)
    (e : PyError)
    (htext : pyBlank text = false) (hq : pyBlank question = false)
    (hc : pyBlank context = false) (hm : pyBlank message = false) :
    summarize cfg text h tn (.error e) = .error (wrapOllamaError cfg e)
  ∧ analyze_text cfg text h tn sid (.error e) = .error (wrapOllamaError cfg e)
  ∧ chat cfg message h hist tn sid (fun _ => .error e) =
      .error (wrapOllamaError cfg e)
  ∧ rag_query cfg question context h tn sid (.error e) =
      .error (wrapOllamaError cfg e)
  ∧ ((strHasSub (pyLower e.message) "connection" = true ∨
      strHasSub (pyLower e.message) "refused" = true) →
      wrapOllamaError cfg e = .connectionError (ollamaConnMsg cfg))
  ∧ ((strHasSub (pyLower e.message) "connection" = false ∧
      strHasSub (pyLower e.message) "refused" = false) →
      wrapOllamaError cfg e = e) := by
  refine ⟨?_, ?_, ?_, ?_, ?_, ?_⟩
  · simp [summarize, htext]
  · simp [analyze_text, htext]
  · simp [chat, hm]
  · simp [rag_query, hq, hc]
  · intro hcond
    rcases hcond with h1 | h1 <;> simp [wrapOllamaError, h1]
  · rintro ⟨h1, h2⟩
    simp [wrapOllamaError, h1, h2]

/-- Witness for the amended C4: a lower-cased `Connection refused` error
is re-wrapped into the Ollama `ConnectionError`. -/
theorem claim_exception_wrap_witness :
    summarize sampleConfig "hello" sampleHandler none
        (Except.error (PyError.other "Connection refused"))
      = Except.error (PyError.connectionError (ollamaConnMsg sampleConfig)) := by
  have h := claim_exception_wrap sampleConfig "hello" "q" "c" "m" sampleHandler
    none none none (PyError.other "Connection refused") rfl rfl rfl rfl
  rw [h.1, h.2.2.2.2.1 (Or.inl (by decide))]

/-- C5: chat history is passed by value (the embedding takes it as an
immutable value, as the Python code only reads it) and grows by exactly
one pair per turn: a successful `chat` returns the input history with the
single pair `(message, response)` appended at the end. -/
theorem claim_chat_history (cfg : Config) (message : String)
    (h : CallbackHandler) (history : List (String × String))
    (tn sid : Option String)
    (llmInvoke : List ChatMessage → Except PyError AIMessage)
    (hmsg : pyBlank message = false)
    (response : String) (hist' : List (String × String))
    (hok : chat cfg message h (some history) tn sid llmInvoke =
      .ok (response, hist')) :
    hist' = history ++ [(message, response)] := by
  simp only [chat, hmsg, Bool.false_eq_true, if_false, Option.getD_some] at hok
  rcases hE : llmInvoke (chatMessages history message) with e | r <;>
    rw [hE] at hok
  · simp at hok
  · simp only [Except.ok.injEq, Prod.mk.injEq] at hok
    rw [← hok.2, ← hok.1]

/-- Witness for C5 at a concrete message, history and LLM oracle. -/
theorem claim_chat_history_witness :
    ([("hi", "yo"), ("ping", "pong")] : List (String × String)) =
      [("hi", "yo")] ++ [("ping", "pong")] :=
  claim_chat_history sampleConfig "ping" sampleHandler [("hi", "yo")]
    none none (fun _ => .ok ⟨"pong"⟩) rfl "pong" _ rfl

/-- C8: empty-input rejection before any side effect: on blank input each
operation raises `ValueError` without consulting the LLM oracle — the
result below is the same for every oracle argument, so no trace-producing
call occurs. -/
theorem claim_blank_rejection (cfg : Config) (h : CallbackHandler)
    (hist : Option (List (String × String))) (tn sid : Option String)
    (text message question context : String)
    (sOracle rOracle : Except PyError AIMessage)
    (aOracle : Except PyError String)
    (cOracle : List ChatMessage → Except PyError AIMessage)
    (htext : pyBlank text = true) (hmsg : pyBlank message = true) :
    summarize cfg text h tn sOracle =
      .error (.valueError "Input text cannot be empty")
  ∧ analyze_text cfg text h tn sid aOracle =
      .error (.valueError "Input text cannot be empty")
  ∧ chat cfg message h hist tn sid cOracle =
      .error (.valueError "Message cannot be empty")
  ∧ (pyBlank question = true →
      rag_query cfg question context h tn sid rOracle =
        .error (.valueError "Question cannot be empty"))
  ∧ (pyBlank question = false → pyBlank context = true →
      rag_query cfg question context h tn sid rOracle =
        .error (.valueError "Context cannot be empty")) := by
  refine ⟨?_, ?_, ?_, ?_, ?_⟩
  · simp [summarize, htext]
  · simp [analyze_text, htext]
  · simp [chat, hmsg]
  · intro hq; simp [rag_query, hq]
  · intro hq hc; simp [rag_query, hq, hc]

/-- Witness for C8 at whitespace-only inputs. -/
theorem claim_blank_rejection_witness :
    summarize sampleConfig "  " sampleHandler none
        (.ok ⟨"unused"⟩) = .error (.valueError "Input text cannot be empty") :=
  (claim_blank_rejection sampleConfig sampleHandler none none none
    "  " " " "q" "c" (.ok ⟨"unused"⟩) (.ok ⟨"unused"⟩) (.ok "unused")
    (fun _ => .ok ⟨"unused"⟩) (by decide) (by decide)).1

/-- C3: `count_words` is the word/char/sentence-count analyzer.  For every
text, the word count is the number of whitespace-separated tokens (the
maximal runs of non-whitespace characters), the character count is the
length of the text, and the sentence count is the number of segments
containing a non-whitespace character after splitting on maximal runs of
`.`, `!`, `?`. -/
theorem claim_count_words (text : String) :
    (count_words text).word_count =
      (runsOf (fun c => !c.isWhitespace) text.data).length
  ∧ (count_words text).character_count = text.data.length
  ∧ (count_words text).sentence_count =
      ((reSplitPunct text.data).filter
        (fun s => s.any (fun c => !c.isWhitespace))).length := by
  refine ⟨?_, rfl, ?_⟩
  · show (pySplitWs text.data).length = _
    unfold pySplitWs
    rw [splitOnPred_filter_eq_runsOf]
    rfl
  · show ((reSplitPunct text.data).filter
      (fun s => !(stripChars s).isEmpty)).length = _
    congr 1
    apply List.filter_congr
    intro s _
    exact strip_isEmpty_eq s

/-- C7: the two tool functions are pure.  Both are embedded as total Lean
functions of their arguments alone (they read and write no ambient
state), so two runs on equal inputs return equal results. -/
theorem claim_tools_pure (t1 t2 : String) (n1 n2 : Nat)
    (ht : t1 = t2) (hn : n1 = n2) :
    count_words t1 = count_words t2 ∧
    extract_keywords t1 n1 = extract_keywords t2 n2 := by
  subst ht
  subst hn
  exact ⟨rfl, rfl⟩

/-- Witness for C7 at a concrete text and keyword budget. -/
theorem claim_tools_pure_witness :
    count_words "Hello world." = count_words "Hello world." ∧
    extract_keywords "Hello world." 2 = extract_keywords "Hello world." 2 :=
  claim_tools_pure "Hello world." "Hello world." 2 2 rfl rfl

/-- C9: `extract_keywords` output bound and shape.  For every text and
`n ≥ 0` (the `Nat` argument), the keywords map has at most `n` entries
with pairwise-distinct keys; every key is a (lowercased) word of the text
of length strictly greater than 3 that is not a stop word, mapped to its
exact occurrence count; the map holds exactly `min n #qualifying` entries
(so the `n` highest-frequency qualifying words are all present while room
remains); every kept entry's count is at least the count of any qualifying
word left out; and `total_unique_keywords` is the number of distinct
qualifying words. -/
theorem claim_extract_keywords (text : String) (n : Nat) :
    ((extract_keywords text n).keywords.map Prod.fst).Nodup
  ∧ (extract_keywords text n).keywords.length ≤ n
  ∧ (extract_keywords text n).keywords.length =
      min n ((findallWords text).filter meaningful).dedup.length
  ∧ (∀ p ∈ (extract_keywords text n).keywords,
      p.1 ∈ findallWords text ∧ p.1 ∉ stop_words ∧ 3 < p.1.length ∧
      p.2 = (findallWords text).count p.1)
  ∧ (∀ p ∈ (extract_keywords text n).keywords, ∀ w,
      w ∈ findallWords text → w ∉ stop_words → 3 < w.length →
      (∀ q ∈ (extract_keywords text n).keywords, q.1 ≠ w) →
      (findallWords text).count w ≤ p.2)
  ∧ (extract_keywords text n).total_unique_keywords =
      ((findallWords text).filter meaningful).dedup.length := by
  have hkw : (extract_keywords text n).keywords =
      (List.insertionSort freqGe
        (buildFreq ((findallWords text).filter meaningful))).take n := rfl
  have htu : (extract_keywords text n).total_unique_keywords =
      (buildFreq ((findallWords text).filter meaningful)).length := rfl
  set W := findallWords text with hWdef
  set M := W.filter meaningful with hMdef
  set F := buildFreq M with hFdef
  set S := List.insertionSort freqGe F with hSdef
  have hFnd : (F.map Prod.fst).Nodup := foldl_keys_nodup M [] (by simp)
  have hSp : S.Perm F := List.perm_insertionSort freqGe F
  have hSnd : (S.map Prod.fst).Nodup := (hSp.map Prod.fst).nodup_iff.mpr hFnd
  have hSort : List.Pairwise freqGe S := List.sorted_insertionSort freqGe F
  -- a member of the frequency dictionary is a qualifying word with its count
  have hFchar : ∀ p : String × Nat, p ∈ F →
      p.1 ∈ W ∧ meaningful p.1 = true ∧ p.2 = M.count p.1 := by
    rintro ⟨w, k⟩ hp
    have hget : freqGet F w = some k := (mem_iff_freqGet F hFnd w k).mp hp
    rw [hFdef] at hget
    rw [show buildFreq M = M.foldl freqStep [] from rfl] at hget
    rw [freqGet_foldl_none M [] w rfl] at hget
    by_cases hc : M.count w = 0
    · rw [hc] at hget; simp at hget
    · simp only [hc, if_false] at hget
      have hk : k = M.count w := by
        have := Option.some.inj hget
        omega
      have hmem : w ∈ M := by
        have : 0 < M.count w := Nat.pos_of_ne_zero hc
        exact List.count_pos_iff.mp this
      obtain ⟨hW, hMng⟩ := List.mem_filter.mp hmem
      exact ⟨hW, hMng, hk⟩
  -- a qualifying word is in the frequency dictionary with its count
  have hFfull : ∀ w, w ∈ W → meaningful w = true → (w, M.count w) ∈ F := by
    intro w hW hMng
    have hmem : w ∈ M := List.mem_filter.mpr ⟨hW, hMng⟩
    have hc : M.count w ≠ 0 := by
      have := List.count_pos_iff.mpr hmem
      omega
    refine (mem_iff_freqGet F hFnd w (M.count w)).mpr ?_
    rw [hFdef, show buildFreq M = M.foldl freqStep [] from rfl,
      freqGet_foldl_none M [] w rfl]
    simp [hc]
  have hcntMW : ∀ w, meaningful w = true → M.count w = W.count w := by
    intro w hMng
    exact List.count_filter hMng
  have hmng_iff : ∀ w : String,
      meaningful w = true ↔ (w ∉ stop_words ∧ 3 < w.length) := by
    intro w
    simp [meaningful]
  refine ⟨?_, ?_, ?_, ?_, ?_, ?_⟩
  · rw [hkw, List.map_take]
    exact List.Nodup.sublist (List.take_sublist n _) hSnd
  · rw [hkw, List.length_take]
    exact Nat.min_le_left n S.length
  · rw [hkw, List.length_take, hSp.length_eq, buildFreq_length]
  · rintro ⟨w, k⟩ hp
    rw [hkw] at hp
    have hpS : (w, k) ∈ S := List.take_subset n S hp
    have hpF : (w, k) ∈ F := hSp.mem_iff.mp hpS
    obtain ⟨hW, hMng, hk⟩ := hFchar _ hpF
    obtain ⟨hstop, hlen⟩ := (hmng_iff w).mp hMng
    exact ⟨hW, hstop, hlen, by rw [hk]; exact hcntMW w hMng⟩
  · intro p hp w hW hstop hlen hkeys
    have hMng : meaningful w = true := (hmng_iff w).mpr ⟨hstop, hlen⟩
    have hwF : (w, M.count w) ∈ F := hFfull w hW hMng
    have hwS : (w, M.count w) ∈ S := hSp.mem_iff.mpr hwF
    rw [hkw] at hp hkeys
    have hwdrop : (w, M.count w) ∈ S.drop n := by
      have := (List.take_append_drop n S) ▸ hwS
      rcases List.mem_append.mp this with htk | hdr
      · exact absurd rfl (hkeys _ htk)
      · exact hdr
    have hrel : freqGe p (w, M.count w) :=
      hSort.rel_of_mem_take_of_mem_drop hp hwdrop
    have : M.count w ≤ p.2 := hrel
    rwa [hcntMW w hMng] at this
  · rw [htu]
    exact buildFreq_length M

/-- Witness for C9 at a concrete text and budget: five qualifying words
exist, so a budget of two is filled exactly. -/
theorem claim_extract_keywords_witness :
    (extract_keywords "The dogs chase dogs while other dogs sleep" 2).keywords.length = 2 := by
  have h := (claim_extract_keywords "The dogs chase dogs while other dogs sleep" 2).2.2.1
  rw [h]
  rfl

end LangLang
